import Mathlib

/-
Verification of the jindou app-provisioning actions and quota ledger.

The Go source embedded here is src/app/actions.go (the pipeline Actions of
the app package) together with the behavior documented for the quota ledger
and pipeline executor.  Go interface values carried in pipeline parameter
lists are modelled by the inductive type PVal, Go results by RVal, Go error
values by GoErr.  The mongo collections are modelled as association lists
keyed by the unique name field; a connection is assumed to be available
(db.Conn never fails in the model).  A Go runtime panic (indexing past the
end of Params, or a direct type assertion that fails) is modelled by the
goPanic error constructor so that every code path is total.
-/

namespace Jindou

/-- Quota as in the quota package: a limit and a current usage counter.
The limit is an int; the value -1 is the sentinel for an unlimited quota. -/
structure Quota where
  limit : Int
  inUse : Int
deriving DecidableEq

/-- quota.Unlimited: the unlimited sentinel quota value. -/
def Quota.Unlimited : Quota := ⟨-1, 0⟩

/-- bind.EnvVar: an environment variable exported to an app. -/
structure EnvVar where
  name : String
  value : String
  public : Bool
  instanceName : String
deriving DecidableEq

/-- app.Unit: a compute unit recorded on an App. -/
structure AppUnit where
  name : String
  type : String
  ip : String
  machine : Int
  state : String
  instanceId : String
deriving DecidableEq

/-- The zero value of app.Unit, appended by insertApp as a placeholder. -/
def AppUnit.empty : AppUnit := ⟨"", "", "", 0, "", ""⟩

/-- app.App: the fields of the application record that the embedded actions
read or write. -/
structure App where
  name : String
  platform : String
  units : List AppUnit
  quota : Quota
  env : List EnvVar
deriving DecidableEq

/-- auth.User: the fields the embedded actions read. -/
structure User where
  email : String
  quota : Quota
deriving DecidableEq

/-- provision.Unit: a unit as returned by the provisioner backend. -/
structure ProvUnit where
  name : String
  type : String
  ip : String
  machine : Int
  instanceId : String
deriving DecidableEq

/-- queue.Message: a work-queue message. -/
structure Message where
  action : String
  args : List String
deriving DecidableEq

/-- Go error values produced by the embedded code.  msg models errors.New
with the given text; goPanic models a Go runtime panic; the remaining
constructors model the named error values of the app and quota packages. -/
inductive GoErr where
  | msg (s : String)
  | goPanic (s : String)
  | appAlreadyExists
  | appNotFound
  | userNotFound
  | quotaExceeded (requested available : Nat)
  | insufficientReservation
  | dbUpdateFailed
deriving DecidableEq

/-- The Error() string of each modelled error value.  ErrAppAlreadyExists
and ErrAppNotFound carry the exact texts of src/app/actions.go; the
insufficientReservation text is the one asserted by TestReleaseUnreservedUnits. -/
def GoErr.message : GoErr → String
  | .msg s => s
  | .goPanic s => s
  | .appAlreadyExists => "there is already an app with this name."
  | .appNotFound => "App not found"
  | .userNotFound => "user not found"
  | .quotaExceeded _ _ => "Quota exceeded"
  | .insufficientReservation => "Not enough reserved units"
  | .dbUpdateFailed => "database update failed"

/-- A Go interface value carried in a pipeline Params list.  Pointer and
value shapes are distinguished because the type switches in the source
accept both; the pointee is carried directly. -/
inductive PVal where
  | app (a : App)
  | appPtr (a : App)
  | user (u : User)
  | userPtr (u : User)
  | intV (n : Int)
  | uintV (n : Nat)
  | strV (s : String)
deriving DecidableEq

/-- A Go interface value returned as an action Result. -/
inductive RVal where
  | mapR (app user : String)
  | appR (a : App)
  | intR (n : Int)
  | s3R (accessKey secretKey bucket endpoint : String) (locationConstraint : Bool)
  | unitsR (units : List ProvUnit)
deriving DecidableEq

/-- Configuration values read by the embedded actions: the optional
quota:units-per-app integer and the host string. -/
structure Config where
  unitsPerApp : Option Int
  host : String
deriving DecidableEq

/-- The Apps collection: find by unique name (app.Get). -/
def findApp (db : List App) (name : String) : Option App :=
  db.find? (fun b => b.name == name)

/-- Update the record with the given name in place. -/
def updateApp (db : List App) (name : String) (f : App → App) : List App :=
  db.map (fun b => if b.name == name then f b else b)

/-- Insert into the Apps collection; the unique index on name makes a
duplicate insert fail distinctly (mgo.IsDup) and create no record. -/
def appsInsert (db : List App) (a : App) : Except GoErr (List App) :=
  if db.any (fun b => b.name == a.name) then .error .appAlreadyExists
  else .ok (db ++ [a])

/-- insertApp.Forward from src/app/actions.go: type-check the first
parameter, set the quota to Unlimited or to the configured
quota:units-per-app limit, append one empty placeholder Unit, and insert;
a duplicate name yields ErrAppAlreadyExists and no new record.
Returns (result, error, new Apps collection). -/
def insertAppForward (cfg : Config) (db : List App) (params : List PVal) :
    Option RVal × Option GoErr × List App :=
  match params[0]? with
  | none => (none, some (.goPanic "index out of range"), db)
  | some (PVal.app a) | some (PVal.appPtr a) =>
      let q : Quota :=
        match cfg.unitsPerApp with
        | some l => { Quota.Unlimited with limit := l }
        | none => Quota.Unlimited
      let a2 : App := { a with quota := q, units := a.units ++ [AppUnit.empty] }
      match appsInsert db a2 with
      | .ok db2 => (some (.appR a2), none, db2)
      | .error e => (none, some e, db)
  | some _ => (none, some (.msg "First parameter must be App or *App."), db)

/-- Modelled from the spec: the quota ledger reserve operation of section
4.1 (the reserveUnits function of the app package is not among the source
files; only its tests and callers are).  reserve(owner, amount) fails with
NotFound when the owner record is absent; when the quota is unlimited (the
limit sentinel -1) it persists inUse increased by amount unconditionally;
otherwise it computes available = limit - inUse, fails with
QuotaExceeded carrying the requested amount and the available count when
amount exceeds available, and otherwise persists the increase through the
conditional-update (compare-and-swap) path.  The returned Bool records
whether the conditional-update path was taken; in this sequential model
the conditional update always commits on the first attempt. -/
def reserveUnits (db : List App) (name : String) (n : Int) :
    Option GoErr × List App × Bool :=
  match findApp db name with
  | none => (some .appNotFound, db, false)
  | some a =>
      if a.quota.limit = -1 then
        (none, updateApp db name
          (fun b => { b with quota := { b.quota with inUse := b.quota.inUse + n } }),
          false)
      else
        let available : Int := a.quota.limit - a.quota.inUse
        if available < n then
          (some (.quotaExceeded n.toNat available.toNat), db, false)
        else
          (none, updateApp db name
            (fun b => { b with quota := { b.quota with inUse := b.quota.inUse + n } }),
            true)

/-- Modelled from the spec: the quota ledger release operation of section
4.1 (the releaseUnits function of the app package is not among the source
files).  release(owner, amount) fails with NotFound when the owner record
is absent, fails with InsufficientReservation when amount exceeds inUse,
and otherwise persists the decrease through the conditional-update path. -/
def releaseUnits (db : List App) (name : String) (n : Int) :
    Option GoErr × List App :=
  match findApp db name with
  | none => (some .appNotFound, db)
  | some a =>
      if a.quota.inUse < n then
        (some .insufficientReservation, db)
      else
        (none, updateApp db name
          (fun b => { b with quota := { b.quota with inUse := b.quota.inUse - n } }))

/-- reserveUnitsToAdd.Forward from src/app/actions.go: type-check the app
parameter and the int-or-uint count, reload the app record (absence yields
ErrAppNotFound), reserve the units through the quota ledger, and return
the count as the result. -/
def reserveUnitsToAddForward (db : List App) (params : List PVal) :
    Option RVal × Option GoErr × List App :=
  match params[0]? with
  | none => (none, some (.goPanic "index out of range"), db)
  | some (PVal.app a) | some (PVal.appPtr a) =>
      (match params[1]? with
       | none => (none, some (.goPanic "index out of range"), db)
       | some (PVal.intV n) =>
           reserveUnitsToAddBody db a n
       | some (PVal.uintV n) =>
           reserveUnitsToAddBody db a (Int.ofNat n)
       | some _ => (none, some (.msg "Second parameter must be int or uint."), db))
  | some _ => (none, some (.msg "First parameter must be App or *App."), db)
where
  /-- The part of reserveUnitsToAdd.Forward after both type checks pass. -/
  reserveUnitsToAddBody (db : List App) (a : App) (n : Int) :
      Option RVal × Option GoErr × List App :=
    match findApp db a.name with
    | none => (none, some .appNotFound, db)
    | some _ =>
        match reserveUnits db a.name n with
        | (some e, _, _) => (none, some e, db)
        | (none, db2, _) => (some (.intR n), none, db2)

/-- The error-message convention of the source for parameter type-check
failures: the message names the offending position by beginning with its
ordinal, as in the texts First parameter must be App or *App. and Second
parameter must be a string. of src/app/actions.go. -/
def namesPosition (s ordinal : String) : Prop :=
  s.data.take ordinal.data.length = ordinal.data

/-- The Users collection: find by unique email (auth.GetUserByEmail);
absence yields the not-found error.  Modelled from the spec: the auth
package is not among the source files. -/
def getUserByEmail (users : List User) (email : String) : Except GoErr User :=
  match users.find? (fun u => u.email == email) with
  | some u => .ok u
  | none => .error .userNotFound

/-- Modelled from the spec: auth.ReserveApp reserves one app against the
user quota, following the quota ledger reserve discipline of section 4.1
with amount 1 (unlimited sentinel passes unconditionally, otherwise the
available count is checked and QuotaExceeded is raised when zero). -/
def reserveApp (users : List User) (u : User) : Except GoErr (List User) :=
  match users.find? (fun w => w.email == u.email) with
  | none => .error .userNotFound
  | some w =>
      if w.quota.limit = -1 then
        .ok (users.map (fun x => if x.email == u.email then
          { x with quota := { x.quota with inUse := x.quota.inUse + 1 } } else x))
      else
        let available : Int := w.quota.limit - w.quota.inUse
        if available < 1 then
          .error (.quotaExceeded 1 available.toNat)
        else
          .ok (users.map (fun x => if x.email == u.email then
            { x with quota := { x.quota with inUse := x.quota.inUse + 1 } } else x))

/-- reserveUserApp.Forward from src/app/actions.go: type-check the app
parameter (App or pointer), type-check the user parameter (auth.User or
pointer) with the error text the source actually carries, reload the user
by email, reserve one app of the user quota, and return the
map with the app name and user email. -/
def reserveUserAppForward (users : List User) (params : List PVal) :
    Option RVal × Option GoErr × List User :=
  match params[0]? with
  | none => (none, some (.goPanic "index out of range"), users)
  | some (PVal.app a) | some (PVal.appPtr a) =>
      (match params[1]? with
       | none => (none, some (.goPanic "index out of range"), users)
       | some (PVal.user u) | some (PVal.userPtr u) =>
           (match getUserByEmail users u.email with
            | .error e => (none, some e, users)
            | .ok usr =>
                match reserveApp users usr with
                | .error e => (none, some e, users)
                | .ok users2 => (some (.mapR a.name u.email), none, users2))
       | some _ =>
           (none, some (.msg "Third parameter must be auth.User or *auth.User."), users))
  | some _ => (none, some (.msg "First parameter must be App or *App."), users)

/-- Modelled from the spec: the name of the queue action that regenerates
the apprc file and starts the app (the constant is declared in a source
file not present under src/); only its identity matters to the claims. -/
def RegenerateApprcAndStart : String := "regenerate-apprc-start-app"

/-- Modelled from the spec: the name of the queue action that binds a unit
to its services (the constant is declared in a source file not present
under src/). -/
def BindService : String := "bind-service"

/-- Modelled from the spec: the string rendering of
provision.StatusBuilding used when a new unit is recorded. -/
def statusBuilding : String := "building"

/-- The app Unit built by saveNewUnitsInDatabase.Forward from a
provisioner unit: name, type, ip, machine and instance id are copied and
the state is set to building. -/
def unitFromProv (u : ProvUnit) : AppUnit :=
  ⟨u.name, u.type, u.ip, u.machine, statusBuilding, u.instanceId⟩

/-- The two follow-up messages built per added unit: one
RegenerateApprcAndStart and one BindService, each carrying the app name
and the unit name. -/
def unitMessages (appName : String) (u : ProvUnit) : List Message :=
  [⟨RegenerateApprcAndStart, [appName, u.name]⟩, ⟨BindService, [appName, u.name]⟩]

/-- saveNewUnitsInDatabase.Forward from src/app/actions.go: type-check the
app parameter, read the previous addUnitsActionResult, reload the app
record (absence yields ErrAppNotFound), append one Unit per provisioned
unit and build the two follow-up messages per unit, persist the enlarged
unit list with a database update, and only after that update has
committed enqueue the messages (asynchronously, via go Enqueue).  The
updateFails flag injects a failure of the database update, as an external
store may fail independently; on that failure the error is returned and
nothing is enqueued.  Returns (result, error, new collection, enqueued
messages). -/
def saveNewUnitsInDatabaseForward (db : List App) (updateFails : Bool)
    (params : List PVal) (prev : RVal) :
    Option RVal × Option GoErr × List App × List Message :=
  match params[0]? with
  | none => (none, some (.goPanic "index out of range"), db, [])
  | some (PVal.app a) | some (PVal.appPtr a) =>
      (match prev with
       | RVal.unitsR units =>
           (match findApp db a.name with
            | none => (none, some .appNotFound, db, [])
            | some a0 =>
                let newUnits := units.map unitFromProv
                let messages := units.flatMap (unitMessages a.name)
                if updateFails then
                  (none, some .dbUpdateFailed, db, [])
                else
                  (none, none,
                    updateApp db a.name
                      (fun b => { b with units := a0.units ++ newUnits }),
                    messages))
       | _ => (none, some (.goPanic "interface conversion"), db, []))
  | some _ => (none, some (.msg "First parameter must be App or *App."), db, [])

/-- Modelled from the spec: the instance name under which the S3
environment variables are grouped (declared in a source file not present
under src/); only its identity matters to the claims. -/
def s3InstanceName : String := "s3"

/-- Modelled from the spec: auth.CreateApplicationToken issues an
application token for the app name (the auth package is not among the
source files); the model renders the token deterministically from the
name, as only its presence under TSURU_APP_TOKEN matters to the claims. -/
def createApplicationToken (appName : String) : String :=
  String.append appName "-app-token"

/-- The environment variables built by exportEnvironmentsAction.Forward:
always TSURU_APPNAME, TSURU_HOST and TSURU_APP_TOKEN, and additionally
the five TSURU_S3_ variables when the previous result is an s3Env.  The
source iterates a Go map for the five S3 variables, so their relative
order is unspecified; the model fixes the textual order of the map
literal, and the theorems only use the set of names. -/
def exportEnvVars (cfg : Config) (appName : String) (prev : RVal) : List EnvVar :=
  let base : List EnvVar :=
    [⟨"TSURU_APPNAME", appName, false, ""⟩,
     ⟨"TSURU_HOST", cfg.host, false, ""⟩,
     ⟨"TSURU_APP_TOKEN", createApplicationToken appName, false, ""⟩]
  match prev with
  | RVal.s3R accessKey secretKey bucket endpoint lc =>
      base ++
        [⟨"TSURU_S3_ENDPOINT", endpoint, false, s3InstanceName⟩,
         ⟨"TSURU_S3_LOCATIONCONSTRAINT", if lc then "true" else "false", false,
           s3InstanceName⟩,
         ⟨"TSURU_S3_ACCESS_KEY_ID", accessKey, false, s3InstanceName⟩,
         ⟨"TSURU_S3_SECRET_KEY", secretKey, false, s3InstanceName⟩,
         ⟨"TSURU_S3_BUCKET", bucket, false, s3InstanceName⟩]
  | _ => base

/-- Insert or overwrite one environment variable, keyed by name. -/
def upsertEnv (env : List EnvVar) (v : EnvVar) : List EnvVar :=
  if env.any (fun w => w.name == v.name) then
    env.map (fun w => if w.name == v.name then v else w)
  else env ++ [v]

/-- Modelled from the spec: setEnvsToApp writes the given variables into
the app environment map (the App method lives in a source file not
present under src/). -/
def setEnvs (env : List EnvVar) (vars : List EnvVar) : List EnvVar :=
  vars.foldl upsertEnv env

/-- exportEnvironmentsAction.Forward from src/app/actions.go: assert the
first parameter to *App, reload the record, create an application token,
read the host from the configuration, build the environment variables
(the S3 set only when the previous result is an s3Env), persist them on
the app, and return the previous result unchanged. -/
def exportEnvironmentsForward (cfg : Config) (db : List App) (params : List PVal)
    (prev : RVal) : Option RVal × Option GoErr × List App :=
  match params[0]? with
  | some (PVal.appPtr a) =>
      (match findApp db a.name with
       | none => (none, some (.msg "not found"), db)
       | some _ =>
           (some prev, none,
             updateApp db a.name
               (fun b => { b with env := setEnvs b.env (exportEnvVars cfg a.name prev) })))
  | _ => (none, some (.goPanic "interface conversion"), db)

/-- An event of a pipeline run: the forward or backward invocation of the
action at the given position in the action list. -/
inductive PipeEv where
  | fwEv (i : Nat)
  | bwEv (i : Nat)
deriving DecidableEq

/-- Modelled from the spec: an Action of section 4.2 as the pipeline
executor sees it (the action package is not among the source files): a
name, a forward function from the shared parameter list and the previous
result to a result or an error, and the declared minimum parameter
count.  The backward function is side-effecting and returns nothing, so
it is represented purely by the backward event the executor records in
the trace. -/
structure ActionM (ρ : Type) where
  name : String
  forward : List PVal → ρ → Except GoErr ρ
  minParams : Nat

/-- Modelled from the spec: the pipeline executor of section 4.3, with
positions threaded for the event trace.  The execution record holds the
positions and forward results of the actions that have succeeded so far,
most recent first; on a forward failure every recorded action is
compensated in that (reverse) order, the failing action itself is not
compensated, and the originating error is surfaced unchanged; before
each forward the shared parameter list is checked against the declared
minimum.  Returns the event trace and the outcome. -/
def pipelineGo {ρ : Type} (params : List PVal) :
    List (ActionM ρ) → Nat → ρ → List (Nat × ρ) → List PipeEv × Except GoErr ρ
  | [], _, prevR, _ => ([], .ok prevR)
  | a :: rest, i, prevR, record =>
      if params.length < a.minParams then
        (record.map (fun p => PipeEv.bwEv p.1),
          .error (.msg "Not enough parameters to call Action.Forward."))
      else
        match a.forward params prevR with
        | .error e =>
            (PipeEv.fwEv i :: record.map (fun p => PipeEv.bwEv p.1), .error e)
        | .ok r =>
            let next := pipelineGo params rest (i + 1) r ((i, r) :: record)
            (PipeEv.fwEv i :: next.1, next.2)

/-- Execute a pipeline: run the actions in order from the seed with an
empty execution record. -/
def pipelineExecute {ρ : Type} (params : List PVal) (acts : List (ActionM ρ))
    (seed : ρ) : List PipeEv × Except GoErr ρ :=
  pipelineGo params acts 0 seed []

/-- Modelled from the spec: the local state of one of the twenty
concurrent reserve(owner, 3) callers of TestReserveUnitsIsAtomic against
the limit-40 quota, following the conditional-update retry loop of
section 4.1.  A caller is about to re-read the record (idle), holds the
usage value v it just read (reading v), or has finished, either
successfully or with the QuotaExceeded fields it observed. -/
inductive CallerState where
  | idle
  | reading (v : Nat)
  | doneOk
  | doneFail (requested available : Nat)
deriving DecidableEq

/-- The shared system state of the concurrent run: the persisted inUse
counter of the owner record and the states of the callers. -/
structure Sys where
  inUse : Nat
  callers : List CallerState
deriving DecidableEq

/-- One atomic step of a single caller for limit 40 and amount 3.  An
idle caller atomically reads the current usage.  A caller holding the
read value v computes available = 40 - v from its read: if the requested
3 exceeds it the caller finishes with QuotaExceeded requested 3 and that
available; otherwise it attempts the conditional update, which commits
v + 3 only when the stored value still equals v (the compare-and-swap),
and on conflict sends the caller back to re-read and retry the reserve
from scratch.  Finished callers do not move. -/
def stepCaller (g : Nat) : CallerState → Nat × CallerState
  | .idle => (g, .reading g)
  | .reading v =>
      if 40 - v < 3 then (g, .doneFail 3 (40 - v))
      else if g = v then (v + 3, .doneOk)
      else (g, .idle)
  | c => (g, c)

/-- Let the caller at position i take one atomic step; an out-of-range
position leaves the system unchanged. -/
def sysStep (s : Sys) (i : Nat) : Sys :=
  match s.callers[i]? with
  | none => s
  | some c =>
      let p := stepCaller s.inUse c
      ⟨p.1, s.callers.set i p.2⟩

/-- Run an arbitrary interleaving: the schedule names, step by step, which
caller moves next.  Quantifying over all schedules quantifies over all
interleavings of the twenty callers. -/
def sysExec (s : Sys) : List Nat → Sys
  | [] => s
  | i :: rest => sysExec (sysStep s i) rest

/-- The initial state of TestReserveUnitsIsAtomic: usage zero and twenty
idle callers, each about to reserve 3 units against limit 40. -/
def initSys : Sys := ⟨0, List.replicate 20 .idle⟩

/-- Whether a caller has finished successfully. -/
def isOk : CallerState → Bool
  | .doneOk => true
  | _ => false

/-- Whether a caller has finished with QuotaExceeded. -/
def isFail : CallerState → Bool
  | .doneFail _ _ => true
  | _ => false

/-- Whether a caller has finished. -/
def isDone (c : CallerState) : Bool := isOk c || isFail c

/-- Every caller of the system has finished. -/
def allDone (s : Sys) : Prop := ∀ c ∈ s.callers, isDone c = true

/-- Completion of a concrete finite run is decidable. -/
instance allDoneDecidable (s : Sys) : Decidable (allDone s) :=
  inferInstanceAs (Decidable (∀ c ∈ s.callers, isDone c = true))

/-- The inductive invariant of the concurrent run: twenty callers; the
persisted usage equals three units per successful caller (each reserve is
all-or-nothing, no lost updates) and never exceeds the limit 40 (no
over-allocation); every read value held by a caller is a multiple of 3
no larger than the current usage (it was the usage at the moment of the
read, and usage only grows); every failed caller observed requested 3 and
available 1; and a failed caller can only exist once the usage has
reached 39. -/
structure SysInv (s : Sys) : Prop where
  len : s.callers.length = 20
  usage : s.inUse = 3 * s.callers.countP isOk
  cap : s.inUse ≤ 40
  reads : ∀ v, CallerState.reading v ∈ s.callers → v % 3 = 0 ∧ v ≤ s.inUse
  fails : ∀ r a, CallerState.doneFail r a ∈ s.callers → r = 3 ∧ a = 1
  failNarrow : ∀ r a, CallerState.doneFail r a ∈ s.callers → s.inUse = 39

/-- A schedule that drives every caller to completion: each caller in turn
reads and then immediately decides.  The first thirteen commit, raising
the usage to 39; the remaining seven observe available 1 and fail. -/
def schedTwoPhase : List Nat :=
  (List.range 20).flatMap (fun i => [i, i])

end Jindou

namespace Jindou

/-- Claim C4: for every app whose name already exists in the database,
insertApp.Forward returns a nil result and ErrAppAlreadyExists, and the
Apps collection is unchanged (no new record is created). -/
theorem insertAppDuplicateFails (cfg : Config) (db : List App) (a : App)
    (params : List PVal)
    (hp : params[0]? = some (.app a) ∨ params[0]? = some (.appPtr a))
    (hdup : ∃ b ∈ db, b.name = a.name) :
    insertAppForward cfg db params = (none, some GoErr.appAlreadyExists, db) := by
  obtain ⟨b, hb, hname⟩ := hdup
  have hany : db.any (fun c => c.name == a.name) = true := by
    rw [List.any_eq_true]
    exact ⟨b, hb, by simp [hname]⟩
  rcases hp with hp | hp <;>
    simp [insertAppForward, hp, appsInsert, hany]

/-- Witness for C4 at a concrete duplicate insert. -/
theorem insertAppDuplicateFails_witness :
    insertAppForward ⟨none, ""⟩ [⟨"come", "gotthard", [], Quota.Unlimited, []⟩]
        [PVal.appPtr ⟨"come", "beatles", [], Quota.Unlimited, []⟩] =
      (none, some GoErr.appAlreadyExists,
        [⟨"come", "gotthard", [], Quota.Unlimited, []⟩]) :=
  insertAppDuplicateFails _ _ _ _ (Or.inr rfl)
    ⟨⟨"come", "gotthard", [], Quota.Unlimited, []⟩, by simp, rfl⟩

/-- Claim C10: for every app accepted by insertApp.Forward, the inserted
record has quota Unlimited unless quota:units-per-app is configured, in
which case the quota limit is the configured value (usage zero); and
exactly one empty placeholder Unit is appended, so the persisted app has
one more unit than the input app. -/
theorem insertAppQuotaAndUnits (cfg : Config) (db : List App) (a : App)
    (params : List PVal)
    (hp : params[0]? = some (.app a) ∨ params[0]? = some (.appPtr a))
    (hfresh : ∀ b ∈ db, b.name ≠ a.name) :
    ∃ ins : App,
      insertAppForward cfg db params = (some (.appR ins), none, db ++ [ins]) ∧
      ins.quota = (match cfg.unitsPerApp with
                   | some l => { limit := l, inUse := 0 }
                   | none => Quota.Unlimited) ∧
      ins.units = a.units ++ [AppUnit.empty] ∧
      ins.units.length = a.units.length + 1 := by
  have hany : db.any (fun c => c.name == a.name) = false := by
    rw [List.any_eq_false]
    intro b hb
    simp [hfresh b hb]
  refine ⟨{ a with
            quota := match cfg.unitsPerApp with
                     | some l => { Quota.Unlimited with limit := l }
                     | none => Quota.Unlimited,
            units := a.units ++ [AppUnit.empty] }, ?_, ?_, by simp, by simp⟩
  · rcases hp with hp | hp <;>
      simp [insertAppForward, hp, appsInsert, hany]
  · cases h : cfg.unitsPerApp <;> simp [h, Quota.Unlimited]

/-- Witness for C10 at a concrete fresh insert with a configured limit. -/
theorem insertAppQuotaAndUnits_witness :
    ∃ ins : App,
      insertAppForward ⟨some 2, ""⟩ []
          [PVal.app ⟨"come", "beatles", [], ⟨0, 0⟩, []⟩] =
        (some (.appR ins), none, [] ++ [ins]) ∧
      ins.quota = { limit := 2, inUse := 0 } ∧
      ins.units = [] ++ [AppUnit.empty] ∧
      ins.units.length = List.length ([] : List AppUnit) + 1 :=
  insertAppQuotaAndUnits ⟨some 2, ""⟩ [] ⟨"come", "beatles", [], ⟨0, 0⟩, []⟩ _
    (Or.inl rfl) (by simp)

/-- Updating a record in place commutes with lookup when the update
preserves the name key. -/
theorem findApp_updateApp (db : List App) (name : String) (f : App → App)
    (hf : ∀ b, (f b).name = b.name) :
    findApp (updateApp db name f) name = (findApp db name).map f := by
  induction db with
  | nil => rfl
  | cons b rest ih =>
      by_cases hb : b.name = name
      · have h1 : (b.name == name) = true := by simp [hb]
        have h2 : ((f b).name == name) = true := by simp [hf, hb]
        simp only [findApp, updateApp, List.map_cons, h1, if_true, List.find?_cons, h2]
        rfl
      · have h1 : (b.name == name) = false := by simp [hb]
        simp only [findApp, updateApp, List.map_cons, h1, Bool.false_eq_true, if_false,
          List.find?_cons]
        exact ih

/-- Claim C5: for an owner quota with limit 7 and inUse 7, releasing 6
units succeeds and leaves inUse 1; releasing 8 units fails with
InsufficientReservation and leaves the collection (hence inUse)
unchanged. -/
theorem releaseUnitsBehavior (db : List App) (a : App)
    (hfind : findApp db a.name = some a) (hq : a.quota = ⟨7, 7⟩) :
    (releaseUnits db a.name 6 =
      (none, updateApp db a.name
        (fun b => { b with quota := { b.quota with inUse := b.quota.inUse - 6 } }))) ∧
    (findApp (releaseUnits db a.name 6).2 a.name =
      some { a with quota := ⟨7, 1⟩ }) ∧
    releaseUnits db a.name 8 = (some GoErr.insufficientReservation, db) := by
  refine ⟨?_, ?_, ?_⟩
  · simp [releaseUnits, hfind, hq]
  · have hstep : releaseUnits db a.name 6 =
        (none, updateApp db a.name
          (fun b => { b with quota := { b.quota with inUse := b.quota.inUse - 6 } })) := by
      simp [releaseUnits, hfind, hq]
    rw [hstep]
    show findApp (updateApp db a.name
      (fun b => { b with quota := { b.quota with inUse := b.quota.inUse - 6 } })) a.name = _
    rw [findApp_updateApp db a.name
      (fun b => { b with quota := { b.quota with inUse := b.quota.inUse - 6 } })
      (fun b => rfl), hfind]
    simp [hq]
  · simp [releaseUnits, hfind, hq]

/-- Witness for C5 at a concrete store holding the owner at limit 7 and
usage 7. -/
theorem releaseUnitsBehavior_witness :
    (releaseUnits [⟨"together", "", [], ⟨7, 7⟩, []⟩] "together" 6 =
      (none, updateApp [⟨"together", "", [], ⟨7, 7⟩, []⟩] "together"
        (fun b => { b with quota := { b.quota with inUse := b.quota.inUse - 6 } }))) ∧
    (findApp (releaseUnits [⟨"together", "", [], ⟨7, 7⟩, []⟩] "together" 6).2 "together" =
      some { name := "together", platform := "", units := [], quota := ⟨7, 1⟩, env := [] }) ∧
    releaseUnits [⟨"together", "", [], ⟨7, 7⟩, []⟩] "together" 8 =
      (some GoErr.insufficientReservation, [⟨"together", "", [], ⟨7, 7⟩, []⟩]) :=
  releaseUnitsBehavior [⟨"together", "", [], ⟨7, 7⟩, []⟩]
    ⟨"together", "", [], ⟨7, 7⟩, []⟩ (by decide) rfl

/-- Claim C6: for every owner whose quota is unlimited and every requested
amount, reserve succeeds, persists inUse increased by the amount
unconditionally, and never takes the conditional-update retry path (the
Bool component is false). -/
theorem reserveUnitsUnlimited (db : List App) (name : String) (n : Int) (a : App)
    (hfind : findApp db name = some a) (hunl : a.quota.limit = -1) :
    reserveUnits db name n =
      (none, updateApp db name
        (fun b => { b with quota := { b.quota with inUse := b.quota.inUse + n } }),
        false) := by
  simp [reserveUnits, hfind, hunl]

/-- Witness for C6 at a concrete unlimited owner and a large amount. -/
theorem reserveUnitsUnlimited_witness :
    reserveUnits [⟨"together", "", [], Quota.Unlimited, []⟩] "together" 1000000 =
      (none, updateApp [⟨"together", "", [], Quota.Unlimited, []⟩] "together"
        (fun b => { b with quota := { b.quota with inUse := b.quota.inUse + 1000000 } }),
        false) :=
  reserveUnitsUnlimited _ _ _ ⟨"together", "", [], Quota.Unlimited, []⟩
    (by decide) rfl

/-- Claim C7: for every app absent from the persistent store,
reserveUnitsToAdd.Forward, once its parameter type checks pass, returns a
nil result and ErrAppNotFound, whose message is the exact string
App not found, and leaves the store unchanged (nothing is reserved). -/
theorem reserveUnitsToAddAppNotFound (db : List App) (a : App)
    (params : List PVal) (v : PVal)
    (hp0 : params[0]? = some (.app a) ∨ params[0]? = some (.appPtr a))
    (hp1 : params[1]? = some v)
    (hn : (∃ n : Int, v = .intV n) ∨ (∃ n : Nat, v = .uintV n))
    (habsent : findApp db a.name = none) :
    reserveUnitsToAddForward db params = (none, some GoErr.appNotFound, db) ∧
    GoErr.appNotFound.message = "App not found" := by
  refine ⟨?_, rfl⟩
  rcases hn with ⟨n, rfl⟩ | ⟨n, rfl⟩ <;>
    rcases hp0 with hp0 | hp0 <;>
      simp [reserveUnitsToAddForward, hp0, hp1,
        reserveUnitsToAddForward.reserveUnitsToAddBody, habsent]

/-- Witness for C7 at an empty store. -/
theorem reserveUnitsToAddAppNotFound_witness :
    (reserveUnitsToAddForward []
        [PVal.appPtr ⟨"something", "", [], ⟨0, 0⟩, []⟩, PVal.intV 3] =
      (none, some GoErr.appNotFound, [])) ∧
    GoErr.appNotFound.message = "App not found" :=
  reserveUnitsToAddAppNotFound [] ⟨"something", "", [], ⟨0, 0⟩, []⟩ _ _
    (Or.inr rfl) rfl (Or.inl ⟨3, rfl⟩) rfl

/-- Counterexample to claim C3 as stated: with a valid app as the first
parameter and a string as the second, reserveUserApp.Forward returns the
error text Third parameter must be auth.User or *auth.User., which does
not name the second position (the position of the offending parameter)
under the message convention of the source. -/
theorem reserveUserAppWrongPosition_cex :
    (reserveUserAppForward []
        [PVal.app ⟨"clap", "django", [], ⟨0, 0⟩, []⟩, PVal.strV "something"]) =
      (none, some (GoErr.msg "Third parameter must be auth.User or *auth.User."), []) ∧
    ¬ namesPosition "Third parameter must be auth.User or *auth.User."
        "Second parameter" := by
  refine ⟨rfl, ?_⟩
  unfold namesPosition
  decide

/-- Claim C3 amended: with a valid app as the first parameter and a second
parameter that is neither auth.User nor *auth.User, reserveUserApp.Forward
returns a nil result and an error naming the expected auth.User type, but
the message labels the offending parameter as the third positional
parameter rather than the second. -/
theorem reserveUserAppInvalidUserMessage (users : List User) (params : List PVal)
    (a : App) (v : PVal)
    (hp0 : params[0]? = some (.app a) ∨ params[0]? = some (.appPtr a))
    (hp1 : params[1]? = some v)
    (hv : ∀ u : User, v ≠ .user u ∧ v ≠ .userPtr u) :
    reserveUserAppForward users params =
      (none, some (GoErr.msg "Third parameter must be auth.User or *auth.User."),
        users) ∧
    namesPosition "Third parameter must be auth.User or *auth.User."
      "Third parameter" := by
  refine ⟨?_, by unfold namesPosition; decide⟩
  rcases hp0 with hp0 | hp0 <;> cases v <;>
    first
      | exact absurd rfl (hv _).1
      | exact absurd rfl (hv _).2
      | simp [reserveUserAppForward, hp0, hp1]

/-- Witness for the amended C3 at the concrete input of the
counterexample. -/
theorem reserveUserAppInvalidUserMessage_witness :
    (reserveUserAppForward []
        [PVal.app ⟨"clap", "django", [], ⟨0, 0⟩, []⟩, PVal.strV "something"] =
      (none, some (GoErr.msg "Third parameter must be auth.User or *auth.User."),
        [])) ∧
    namesPosition "Third parameter must be auth.User or *auth.User."
      "Third parameter" :=
  reserveUserAppInvalidUserMessage [] _ ⟨"clap", "django", [], ⟨0, 0⟩, []⟩ _
    (Or.inl rfl) rfl
    (fun _ => ⟨fun h => PVal.noConfusion h, fun h => PVal.noConfusion h⟩)

/-- Claim C8: saveNewUnitsInDatabase.Forward enqueues its follow-up
messages, one RegenerateApprcAndStart and one BindService per added unit,
only on the branch where the database update persisting the new units has
committed; when the update fails the error is returned and no messages
are enqueued. -/
theorem saveNewUnitsEnqueueAfterCommit (db : List App) (updateFails : Bool)
    (params : List PVal) (a a0 : App) (units : List ProvUnit)
    (hp : params[0]? = some (.app a) ∨ params[0]? = some (.appPtr a))
    (hfind : findApp db a.name = some a0) :
    (updateFails = true →
      saveNewUnitsInDatabaseForward db updateFails params (.unitsR units) =
        (none, some GoErr.dbUpdateFailed, db, [])) ∧
    (updateFails = false →
      saveNewUnitsInDatabaseForward db updateFails params (.unitsR units) =
        (none, none,
          updateApp db a.name
            (fun b => { b with units := a0.units ++ units.map unitFromProv }),
          units.flatMap (unitMessages a.name))) := by
  constructor <;> intro hflag <;> subst hflag <;> rcases hp with hp | hp <;>
    simp [saveNewUnitsInDatabaseForward, hp, hfind]

/-- Witness for C8 at a concrete store, app and two provisioned units,
with the update committing. -/
theorem saveNewUnitsEnqueueAfterCommit_witness :
    ((false = true →
      saveNewUnitsInDatabaseForward [⟨"visions", "django", [], ⟨0, 0⟩, []⟩] false
          [PVal.appPtr ⟨"visions", "django", [], ⟨0, 0⟩, []⟩]
          (.unitsR [⟨"u1", "t", "ip1", 1, "i1"⟩, ⟨"u2", "t", "ip2", 2, "i2"⟩]) =
        (none, some GoErr.dbUpdateFailed, [⟨"visions", "django", [], ⟨0, 0⟩, []⟩], [])) ∧
    (false = false →
      saveNewUnitsInDatabaseForward [⟨"visions", "django", [], ⟨0, 0⟩, []⟩] false
          [PVal.appPtr ⟨"visions", "django", [], ⟨0, 0⟩, []⟩]
          (.unitsR [⟨"u1", "t", "ip1", 1, "i1"⟩, ⟨"u2", "t", "ip2", 2, "i2"⟩]) =
        (none, none,
          updateApp [⟨"visions", "django", [], ⟨0, 0⟩, []⟩] "visions"
            (fun b => { b with units :=
              [] ++ [⟨"u1", "t", "ip1", 1, "i1"⟩, ⟨"u2", "t", "ip2", 2, "i2"⟩].map unitFromProv }),
          [⟨"u1", "t", "ip1", 1, "i1"⟩, ⟨"u2", "t", "ip2", 2, "i2"⟩].flatMap
            (unitMessages "visions")))) :=
  saveNewUnitsEnqueueAfterCommit [⟨"visions", "django", [], ⟨0, 0⟩, []⟩] false
    [PVal.appPtr ⟨"visions", "django", [], ⟨0, 0⟩, []⟩]
    ⟨"visions", "django", [], ⟨0, 0⟩, []⟩ ⟨"visions", "django", [], ⟨0, 0⟩, []⟩
    [⟨"u1", "t", "ip1", 1, "i1"⟩, ⟨"u2", "t", "ip2", 2, "i2"⟩]
    (Or.inr rfl) (by decide)

/-- Claim C9: exportEnvironmentsAction.Forward, for every app it accepts,
sets environment variables with exactly the names TSURU_APPNAME,
TSURU_HOST and TSURU_APP_TOKEN, and, when the previous result is an
s3Env, additionally exactly TSURU_S3_ENDPOINT, TSURU_S3_LOCATIONCONSTRAINT,
TSURU_S3_ACCESS_KEY_ID, TSURU_S3_SECRET_KEY and TSURU_S3_BUCKET, these
exact strings; and the variables it persists on the app are exactly the
ones so named. -/
theorem exportEnvironmentsNames (cfg : Config) (db : List App)
    (params : List PVal) (prev : RVal) (a a0 : App)
    (hp : params[0]? = some (.appPtr a))
    (hfind : findApp db a.name = some a0) :
    (∀ ak sk bu ep lc, prev = .s3R ak sk bu ep lc →
      ∀ n, n ∈ (exportEnvVars cfg a.name prev).map EnvVar.name ↔
        n ∈ ["TSURU_APPNAME", "TSURU_HOST", "TSURU_APP_TOKEN",
             "TSURU_S3_ENDPOINT", "TSURU_S3_LOCATIONCONSTRAINT",
             "TSURU_S3_ACCESS_KEY_ID", "TSURU_S3_SECRET_KEY", "TSURU_S3_BUCKET"]) ∧
    ((∀ ak sk bu ep lc, prev ≠ .s3R ak sk bu ep lc) →
      ∀ n, n ∈ (exportEnvVars cfg a.name prev).map EnvVar.name ↔
        n ∈ ["TSURU_APPNAME", "TSURU_HOST", "TSURU_APP_TOKEN"]) ∧
    exportEnvironmentsForward cfg db params prev =
      (some prev, none,
        updateApp db a.name
          (fun b => { b with env := setEnvs b.env (exportEnvVars cfg a.name prev) })) := by
  refine ⟨?_, ?_, ?_⟩
  · rintro ak sk bu ep lc rfl n
    simp [exportEnvVars]
  · intro hne n
    cases prev with
    | s3R ak sk bu ep lc => exact absurd rfl (hne ak sk bu ep lc)
    | _ => simp [exportEnvVars]
  · simp [exportEnvironmentsForward, hp, hfind]

/-- Witness for C9 at a concrete store, app and s3Env previous result. -/
theorem exportEnvironmentsNames_witness :
    ((∀ ak sk bu ep lc,
        RVal.s3R "access" "s3cr3t" "mist-bucket" "endpoint" true = .s3R ak sk bu ep lc →
      ∀ n, n ∈ (exportEnvVars ⟨none, "localhost"⟩ "mist"
            (RVal.s3R "access" "s3cr3t" "mist-bucket" "endpoint" true)).map EnvVar.name ↔
        n ∈ ["TSURU_APPNAME", "TSURU_HOST", "TSURU_APP_TOKEN",
             "TSURU_S3_ENDPOINT", "TSURU_S3_LOCATIONCONSTRAINT",
             "TSURU_S3_ACCESS_KEY_ID", "TSURU_S3_SECRET_KEY", "TSURU_S3_BUCKET"]) ∧
    ((∀ ak sk bu ep lc,
        RVal.s3R "access" "s3cr3t" "mist-bucket" "endpoint" true ≠ .s3R ak sk bu ep lc) →
      ∀ n, n ∈ (exportEnvVars ⟨none, "localhost"⟩ "mist"
            (RVal.s3R "access" "s3cr3t" "mist-bucket" "endpoint" true)).map EnvVar.name ↔
        n ∈ ["TSURU_APPNAME", "TSURU_HOST", "TSURU_APP_TOKEN"]) ∧
    exportEnvironmentsForward ⟨none, "localhost"⟩ [⟨"mist", "opeth", [], ⟨0, 0⟩, []⟩]
        [PVal.appPtr ⟨"mist", "opeth", [], ⟨0, 0⟩, []⟩]
        (RVal.s3R "access" "s3cr3t" "mist-bucket" "endpoint" true) =
      (some (RVal.s3R "access" "s3cr3t" "mist-bucket" "endpoint" true), none,
        updateApp [⟨"mist", "opeth", [], ⟨0, 0⟩, []⟩] "mist"
          (fun b => { b with env := setEnvs b.env
                                      (exportEnvVars ⟨none, "localhost"⟩ "mist"
                                        (RVal.s3R "access" "s3cr3t" "mist-bucket"
                                          "endpoint" true)) }))) :=
  exportEnvironmentsNames ⟨none, "localhost"⟩ [⟨"mist", "opeth", [], ⟨0, 0⟩, []⟩]
    [PVal.appPtr ⟨"mist", "opeth", [], ⟨0, 0⟩, []⟩]
    (RVal.s3R "access" "s3cr3t" "mist-bucket" "endpoint" true)
    ⟨"mist", "opeth", [], ⟨0, 0⟩, []⟩ ⟨"mist", "opeth", [], ⟨0, 0⟩, []⟩
    rfl (by decide)

/-- Claim C2: for every pipeline of actions A, B, C whose parameter list
satisfies every declared minimum, where the forwards of A and B succeed
and the forward of C fails, the executor produces exactly the trace
forward A, forward B, forward C, backward B, backward A and surfaces the
originating error: the backwards of B and A run in strict reverse order,
the backward of A only after the backward of B, and the backward of C is
never invoked. -/
theorem pipelineRollbackReverseOrder {ρ : Type} (params : List PVal)
    (A B C : ActionM ρ) (seed rA rB : ρ) (e : GoErr)
    (hmA : A.minParams ≤ params.length) (hmB : B.minParams ≤ params.length)
    (hmC : C.minParams ≤ params.length)
    (hA : A.forward params seed = .ok rA) (hB : B.forward params rA = .ok rB)
    (hC : C.forward params rB = .error e) :
    pipelineExecute params [A, B, C] seed =
      ([PipeEv.fwEv 0, PipeEv.fwEv 1, PipeEv.fwEv 2, PipeEv.bwEv 1, PipeEv.bwEv 0],
        .error e) := by
  have nA : ¬ params.length < A.minParams := Nat.not_lt.mpr hmA
  have nB : ¬ params.length < B.minParams := Nat.not_lt.mpr hmB
  have nC : ¬ params.length < C.minParams := Nat.not_lt.mpr hmC
  simp [pipelineExecute, pipelineGo, nA, nB, nC, hA, hB, hC]

/-- Setting position i, which holds c, to c2 changes a countP total by
the difference of the two indicator values. -/
theorem countP_set_eq (p : CallerState → Bool) :
    ∀ (l : List CallerState) (i : Nat) (c c2 : CallerState), l[i]? = some c →
      (l.set i c2).countP p + (if p c then 1 else 0) =
        l.countP p + (if p c2 then 1 else 0)
  | [], i, c, c2, h => by simp at h
  | x :: xs, 0, c, c2, h => by
      simp only [List.getElem?_cons_zero, Option.some.injEq] at h
      subst h
      simp only [List.set_cons_zero, List.countP_cons]
      omega
  | x :: xs, i + 1, c, c2, h => by
      simp only [List.getElem?_cons_succ] at h
      have ih := countP_set_eq p xs i c c2 h
      simp only [List.set_cons_succ, List.countP_cons]
      omega

/-- The invariant is preserved by every atomic step of every caller. -/
theorem sysStep_inv {s : Sys} (h : SysInv s) (i : Nat) : SysInv (sysStep s i) := by
  obtain ⟨len, usage, cap, reads, fails, failNarrow⟩ := h
  unfold sysStep
  cases hg : s.callers[i]? with
  | none => exact ⟨len, usage, cap, reads, fails, failNarrow⟩
  | some c =>
      have hcmem : c ∈ s.callers := List.getElem?_mem hg
      cases c with
      | idle =>
          have hcount := countP_set_eq isOk s.callers i .idle (.reading s.inUse) hg
          simp [isOk] at hcount
          refine show SysInv ⟨s.inUse, s.callers.set i (.reading s.inUse)⟩ from ?_
          refine ⟨by simp [len], by simp; omega, cap, ?_, ?_, ?_⟩
          · intro v hv
            rcases List.mem_or_eq_of_mem_set hv with hv | hv
            · exact reads v hv
            · injection hv with hv2
              subst hv2
              exact ⟨by omega, Nat.le_refl _⟩
          · intro r a hra
            rcases List.mem_or_eq_of_mem_set hra with hra | hra
            · exact fails r a hra
            · exact CallerState.noConfusion hra
          · intro r a hra
            rcases List.mem_or_eq_of_mem_set hra with hra | hra
            · exact failNarrow r a hra
            · exact CallerState.noConfusion hra
      | reading v =>
          obtain ⟨hv3, hvle⟩ := reads v hcmem
          by_cases hfail : 40 - v < 3
          · have hstep : stepCaller s.inUse (.reading v) =
                (s.inUse, .doneFail 3 (40 - v)) := by
              simp [stepCaller, hfail]
            simp only [hstep]
            refine show SysInv ⟨s.inUse, s.callers.set i (.doneFail 3 (40 - v))⟩ from ?_
            have hcount := countP_set_eq isOk s.callers i (.reading v)
              (.doneFail 3 (40 - v)) hg
            simp [isOk] at hcount
            have h39 : s.inUse = 39 ∧ v = 39 := by constructor <;> omega
            refine ⟨by simp [len], by simp; omega, cap, ?_, ?_, ?_⟩
            · intro v2 hv2
              rcases List.mem_or_eq_of_mem_set hv2 with hv2 | hv2
              · exact reads v2 hv2
              · exact CallerState.noConfusion hv2
            · intro r a hra
              rcases List.mem_or_eq_of_mem_set hra with hra | hra
              · exact fails r a hra
              · injection hra with hr2 ha2
                subst hr2
                subst ha2
                exact ⟨rfl, by omega⟩
            · intro r a _
              exact h39.1
          · by_cases hcas : s.inUse = v
            · have hstep : stepCaller s.inUse (.reading v) = (v + 3, .doneOk) := by
                simp [stepCaller, hfail, hcas]
              simp only [hstep]
              refine show SysInv ⟨v + 3, s.callers.set i .doneOk⟩ from ?_
              have hcount := countP_set_eq isOk s.callers i (.reading v) .doneOk hg
              simp [isOk] at hcount
              refine ⟨by simp [len], by simp; omega, by show v + 3 ≤ 40; omega, ?_, ?_, ?_⟩
              · intro v2 hv2
                rcases List.mem_or_eq_of_mem_set hv2 with hv2 | hv2
                · obtain ⟨hmod, hle⟩ := reads v2 hv2
                  exact ⟨hmod, by show v2 ≤ v + 3; omega⟩
                · exact CallerState.noConfusion hv2
              · intro r a hra
                rcases List.mem_or_eq_of_mem_set hra with hra | hra
                · exact fails r a hra
                · exact CallerState.noConfusion hra
              · intro r a hra
                rcases List.mem_or_eq_of_mem_set hra with hra | hra
                · exact absurd (failNarrow r a hra) (by omega)
                · exact CallerState.noConfusion hra
            · have hstep : stepCaller s.inUse (.reading v) = (s.inUse, .idle) := by
                simp [stepCaller, hfail, hcas]
              simp only [hstep]
              refine show SysInv ⟨s.inUse, s.callers.set i .idle⟩ from ?_
              have hcount := countP_set_eq isOk s.callers i (.reading v) .idle hg
              simp [isOk] at hcount
              refine ⟨by simp [len], by simp; omega, cap, ?_, ?_, ?_⟩
              · intro v2 hv2
                rcases List.mem_or_eq_of_mem_set hv2 with hv2 | hv2
                · exact reads v2 hv2
                · exact CallerState.noConfusion hv2
              · intro r a hra
                rcases List.mem_or_eq_of_mem_set hra with hra | hra
                · exact fails r a hra
                · exact CallerState.noConfusion hra
              · intro r a hra
                rcases List.mem_or_eq_of_mem_set hra with hra | hra
                · exact failNarrow r a hra
                · exact CallerState.noConfusion hra
      | doneOk =>
          refine show SysInv ⟨s.inUse, s.callers.set i .doneOk⟩ from ?_
          have hcount := countP_set_eq isOk s.callers i .doneOk .doneOk hg
          simp [isOk] at hcount
          refine ⟨by simp [len], by simp; omega, cap, ?_, ?_, ?_⟩
          · intro v2 hv2
            rcases List.mem_or_eq_of_mem_set hv2 with hv2 | hv2
            · exact reads v2 hv2
            · exact CallerState.noConfusion hv2
          · intro r a hra
            rcases List.mem_or_eq_of_mem_set hra with hra | hra
            · exact fails r a hra
            · exact CallerState.noConfusion hra
          · intro r a hra
            rcases List.mem_or_eq_of_mem_set hra with hra | hra
            · exact failNarrow r a hra
            · exact CallerState.noConfusion hra
      | doneFail r0 a0 =>
          refine show SysInv ⟨s.inUse, s.callers.set i (.doneFail r0 a0)⟩ from ?_
          have hcount := countP_set_eq isOk s.callers i (.doneFail r0 a0)
            (.doneFail r0 a0) hg
          simp [isOk] at hcount
          refine ⟨by simp [len], by simp; omega, cap, ?_, ?_, ?_⟩
          · intro v2 hv2
            rcases List.mem_or_eq_of_mem_set hv2 with hv2 | hv2
            · exact reads v2 hv2
            · exact CallerState.noConfusion hv2
          · intro r a hra
            rcases List.mem_or_eq_of_mem_set hra with hra | hra
            · exact fails r a hra
            · injection hra with hr2 ha2
              subst hr2
              subst ha2
              exact fails r a hcmem
          · intro r a hra
            rcases List.mem_or_eq_of_mem_set hra with hra | hra
            · exact failNarrow r a hra
            · exact failNarrow r0 a0 hcmem

/-- The invariant is preserved by every schedule. -/
theorem sysExec_inv : ∀ (sched : List Nat) {s : Sys}, SysInv s →
    SysInv (sysExec s sched)
  | [], _, h => h
  | _ :: rest, _, h => sysExec_inv rest (sysStep_inv h _)

/-- The invariant holds initially. -/
theorem initSys_inv : SysInv initSys := by
  refine ⟨rfl, by decide, by decide, ?_, ?_, ?_⟩
  · intro v hv
    simp only [initSys] at hv
    exact CallerState.noConfusion (List.eq_of_mem_replicate hv)
  · intro r a hra
    simp only [initSys] at hra
    exact CallerState.noConfusion (List.eq_of_mem_replicate hra)
  · intro r a hra
    simp only [initSys] at hra
    exact CallerState.noConfusion (List.eq_of_mem_replicate hra)

/-- When every caller has finished, successes and failures partition the
callers. -/
theorem countDone (l : List CallerState) (h : ∀ c ∈ l, isDone c = true) :
    l.countP isOk + l.countP isFail = l.length := by
  induction l with
  | nil => simp
  | cons x xs ih =>
      have hx := h x (List.mem_cons_self x xs)
      have hxs := ih (fun c hc => h c (List.mem_cons_of_mem x hc))
      cases x <;> simp [isOk, isFail, isDone, List.countP_cons] at hx ⊢ <;> omega


/-- Witness for C2 at a concrete three-action pipeline over Nat results
whose third forward fails. -/
theorem pipelineRollbackReverseOrder_witness :
    pipelineExecute [] [(⟨"A", fun _ _ => .ok 1, 0⟩ : ActionM Nat),
        ⟨"B", fun _ _ => .ok 2, 0⟩,
        ⟨"C", fun _ _ => .error (.msg "forward failure"), 0⟩] 0 =
      ([PipeEv.fwEv 0, PipeEv.fwEv 1, PipeEv.fwEv 2, PipeEv.bwEv 1, PipeEv.bwEv 0],
        .error (.msg "forward failure")) :=
  pipelineRollbackReverseOrder [] ⟨"A", fun _ _ => .ok 1, 0⟩
    ⟨"B", fun _ _ => .ok 2, 0⟩ ⟨"C", fun _ _ => .error (.msg "forward failure"), 0⟩
    0 1 2 (.msg "forward failure")
    (Nat.le_refl 0) (Nat.le_refl 0) (Nat.le_refl 0) rfl rfl rfl

/-- Claim C1: in every interleaving of the twenty concurrent callers each
reserving 3 units against limit 40 from usage 0, the persisted usage
always equals three units per successful reservation and never exceeds
the limit (each reserve is all-or-nothing, with no lost updates and no
over-allocation); and in every interleaving in which all twenty callers
complete, the final usage is exactly 39, at least one caller loses, and
every losing caller receives QuotaExceeded with requested 3 and
available 1. -/
theorem reserveUnitsIsAtomic (sched : List Nat) :
    (sysExec initSys sched).inUse = 3 * (sysExec initSys sched).callers.countP isOk ∧
    (sysExec initSys sched).inUse ≤ 40 ∧
    (allDone (sysExec initSys sched) →
      (sysExec initSys sched).inUse = 39 ∧
      (∃ r a, CallerState.doneFail r a ∈ (sysExec initSys sched).callers) ∧
      (∀ r a, CallerState.doneFail r a ∈ (sysExec initSys sched).callers →
        r = 3 ∧ a = 1)) := by
  obtain ⟨len, usage, cap, reads, fails, failNarrow⟩ := sysExec_inv sched initSys_inv
  refine ⟨usage, cap, ?_⟩
  intro hdone
  have hsum := countDone _ hdone
  have hfailpos : 0 < (sysExec initSys sched).callers.countP isFail := by
    by_contra hnp
    omega
  obtain ⟨c, hcmem, hcfail⟩ := List.countP_pos_iff.mp hfailpos
  cases c with
  | idle => exact absurd hcfail (by simp [isFail])
  | reading v => exact absurd hcfail (by simp [isFail])
  | doneOk => exact absurd hcfail (by simp [isFail])
  | doneFail r a => exact ⟨failNarrow r a hcmem, ⟨r, a, hcmem⟩, fails⟩

set_option maxRecDepth 10000 in
/-- Witness for C1 at the concrete completing schedule: thirteen callers
commit in turn, raising the usage to 39, and the remaining seven fail
with QuotaExceeded requested 3 available 1. -/
theorem reserveUnitsIsAtomic_witness :
    allDone (sysExec initSys schedTwoPhase) ∧
    ((sysExec initSys schedTwoPhase).inUse = 39 ∧
      (∃ r a, CallerState.doneFail r a ∈ (sysExec initSys schedTwoPhase).callers) ∧
      (∀ r a, CallerState.doneFail r a ∈ (sysExec initSys schedTwoPhase).callers →
        r = 3 ∧ a = 1)) :=
  ⟨by decide, (reserveUnitsIsAtomic schedTwoPhase).2.2 (by decide)⟩

end Jindou
